import Mathlib

/-!
Shallow embedding, in Lean 4, of the Resonance knowledge-graph pipeline
(bento boxing, graph store, edge weaving with the Louvain modularity gate,
semantic/timeline weaving, ingestion, hybrid search, validation).

Texts are modelled as Lean `String`s, or as `List Char` where character-level
scanning is needed.  JavaScript numbers are modelled as exact rationals `ℚ`
(and as reals `ℝ` for the FAFCAS vector codec, where a square root occurs).
SQLite tables are modelled as Lean lists of typed rows; `INSERT OR IGNORE`
and `INSERT OR REPLACE` are modelled explicitly.  External collaborators
(the MD5 primitive, the embedding model, the FTS engine, the Markdown
parser/stringifier) enter as explicit function parameters.
-/

namespace Resonance

/-! ## Character-level text utilities (JS string semantics) -/

/-- A whitespace character, as matched by the JS `\s` class (approximated
by Unicode whitespace). -/
def wsChar (c : Char) : Bool := c.isWhitespace

/-- `String.prototype.trim`: drop leading and trailing whitespace
(char-list form). -/
def trimL (l : List Char) : List Char :=
  ((l.dropWhile wsChar).reverse.dropWhile wsChar).reverse

/-- Helper for `wordsL`: split on whitespace runs, accumulating the current
word in reverse. -/
def wordsAux : List Char → List Char → List (List Char)
  | [], acc => if acc.isEmpty then [] else [acc.reverse]
  | c :: cs, acc =>
    if wsChar c then
      if acc.isEmpty then wordsAux cs [] else acc.reverse :: wordsAux cs []
    else wordsAux cs (c :: acc)

/-- The maximal non-whitespace runs (words) of a text, in order.  This is
`text.split(/\s+/)` with empty fragments dropped; two texts are equal up to
whitespace normalization exactly when their `wordsL` agree. -/
def wordsL (l : List Char) : List (List Char) := wordsAux l []

/-- `text.split(/\s+/).length` as used by `BentoBoxer.countTokens`.  The
call site always passes a trimmed text, for which the JS split yields the
word list — except that the empty string yields `[""]`, of length 1. -/
def countTokens (l : List Char) : Nat :=
  if l.isEmpty then 1 else (wordsL l).length

/-- `String.intercalate` on char lists (JS `Array.prototype.join`). -/
def intercalateL (sep : List Char) : List (List Char) → List Char
  | [] => []
  | [x] => x
  | x :: y :: xs => x ++ sep ++ intercalateL sep (y :: xs)

/-- Split a char list at every occurrence of a separator character
(JS `String.prototype.split` with a one-character separator). -/
def splitOnChar (sep : Char) : List Char → List (List Char)
  | [] => [[]]
  | c :: cs =>
    if c = sep then [] :: splitOnChar sep cs
    else
      match splitOnChar sep cs with
      | [] => [[c]]
      | h :: t => (c :: h) :: t

/-- JS truthiness for an optional string column: `null`, `undefined` and the
empty string are falsy.  `jsOr o d` models `o || d`. -/
def jsOr (o : Option String) (d : String) : String :=
  match o with
  | some s => if s = "" then d else s
  | none => d

/-- `value ? String(value) : null` — the store writes `NULL` for an absent
or empty string field. -/
def jsStringOrNull (o : Option String) : Option String :=
  match o with
  | some s => if s = "" then none else some s
  | none => none

/-- `String.prototype.trim` on Lean strings, via the char-list model. -/
def jsTrim (s : String) : String := String.mk (trimL s.toList)

/-! ## Graph store: rows and basic operations (`ResonanceDB`, part_004) -/

/-- A row of the `edges` table; `(source, target, type)` is the primary key. -/
structure Edge where
  source : String
  target : String
  type : String
deriving DecidableEq

/-- A row of the `nodes` table (`id` is the primary key).  Embeddings are
stored decoded as rational vectors; `meta` JSON objects are modelled as
ordered key/value lists where a later binding overrides an earlier one. -/
structure NodeRow where
  id : String
  type : String
  title : Option String
  content : Option String
  domain : String
  layer : String
  embedding : Option (List ℚ)
  hash : Option String
  meta : Option (List (String × String))
deriving DecidableEq

/-- The database state: the `nodes` and `edges` tables, in row order. -/
structure DBState where
  nodes : List NodeRow
  edges : List Edge
deriving DecidableEq

/-- The argument of `ResonanceDB.insertNode` (the `Node` interface of
part_004): optional fields may be absent, `label` maps to the `title`
column. -/
structure NodeInput where
  id : String
  type : String
  label : Option String
  content : Option String
  domain : Option String
  layer : Option String
  embedding : Option (List ℚ)
  hash : Option String
  meta : Option (List (String × String))
deriving DecidableEq

/-- `ResonanceDB.insertNode` (part_004 lines 78-112): `INSERT OR REPLACE`
into `nodes`, with `String(node.domain || "knowledge")`,
`String(node.layer || "experience")`, `NULL` for falsy title/content/hash,
and the embedding encoded through the FAFCAS codec (`toBlob` parameter;
the byte serialization itself is external to the row model). -/
def insertNode (toBlob : List ℚ → List ℚ) (db : DBState) (n : NodeInput) : DBState :=
  let row : NodeRow :=
    { id := n.id
      type := n.type
      title := jsStringOrNull n.label
      content := jsStringOrNull n.content
      domain := jsOr n.domain "knowledge"
      layer := jsOr n.layer "experience"
      embedding := n.embedding.map toBlob
      hash := jsStringOrNull n.hash
      meta := n.meta }
  { db with nodes := db.nodes.filter (fun r => r.id ≠ n.id) ++ [row] }

/-- `ResonanceDB.insertEdge` (part_004 lines 118-126): `INSERT OR IGNORE`
on the `(source, target, type)` primary key. -/
def insertEdge (db : DBState) (source target type : String) : DBState :=
  if db.edges.any (fun e => e.source = source ∧ e.target = target ∧ e.type = type) then db
  else { db with edges := db.edges ++ [⟨source, target, type⟩] }

/-- `ResonanceDB.getNodeHash` (part_004 lines 222-227): `SELECT hash FROM
nodes WHERE id = ?`, `null` both for a missing row and a `NULL` hash. -/
def getNodeHash (db : DBState) (id : String) : Option String :=
  (db.nodes.find? (fun r => r.id = id)).bind (fun r => r.hash)

/-- `dotProduct` (part_004 lines 314-321): `Σ (a[i] || 0) * (b[i] || 0)`
over the indices of the first vector; out-of-range reads yield 0. -/
def dotProduct (a b : List ℚ) : ℚ :=
  (List.range a.length).foldl (fun s i => s + a.getD i 0 * b.getD i 0) 0

/-- A result row of `ResonanceDB.findSimilar`. -/
structure SimRow where
  id : String
  label : String
  score : ℚ
deriving DecidableEq

/-- `ResonanceDB.findSimilar` (part_004 lines 183-220): brute-force dot
product against every node with a non-`NULL` embedding (optionally
restricted to one domain), sorted by score descending, sliced to `limit`.
The JS `sort((a, b) => b.score - a.score)` is a stable descending sort,
modelled by a stable insertion sort. -/
def findSimilar (db : DBState) (queryVec : List ℚ) (limit : Nat)
    (domain : Option String) : List SimRow :=
  let rows := db.nodes.filter fun r =>
    r.embedding.isSome && (match domain with | some d => decide (r.domain = d) | none => true)
  let results := rows.filterMap fun r =>
    r.embedding.map fun vec =>
      ({ id := r.id, label := jsOr r.title r.id, score := dotProduct queryVec vec } : SimRow)
  (results.insertionSort (fun a b => b.score ≤ a.score)).take limit

/-! ## LouvainGate (`src/core/LouvainGate.ts`) -/

/-- The result of `LouvainGate.check`. -/
structure GateResult where
  allowed : Bool
  reason : Option String
deriving DecidableEq

/-- `LouvainGate.isSuperNode`: `SELECT COUNT(*) FROM edges WHERE target = ?
OR source = ?` compared against the threshold (strictly greater). -/
def isSuperNode (edges : List Edge) (id : String) (threshold : Nat) : Bool :=
  threshold < (edges.filter (fun e => e.target = id ∨ e.source = id)).length

/-- `LouvainGate.sharesNeighbor`: the SQL self-join over `edges` — an edge
`e1` incident on `a` and an edge `e2` incident on `b` such that `e1` and
`e2` share some endpoint (any of the four source/target combinations). -/
def sharesNeighbor (edges : List Edge) (a b : String) : Bool :=
  edges.any fun e1 => edges.any fun e2 =>
    (e1.source = a ∨ e1.target = a) ∧
    (e2.source = b ∨ e2.target = b) ∧
    (e1.target = e2.target ∨ e1.source = e2.source ∨
     e1.target = e2.source ∨ e1.source = e2.target)

/-- `LouvainGate.check` (LouvainGate.ts lines 16-32): reject exactly when
the target is a super-node and `sharesNeighbor` fails. -/
def LouvainGate.check (edges : List Edge) (source target : String)
    (threshold : Nat := 50) : GateResult :=
  if isSuperNode edges target threshold then
    if sharesNeighbor edges source target then { allowed := true, reason := none }
    else
      { allowed := false
        reason := some ("Rejected edge " ++ source ++ " -> " ++ target ++
          " due to low modularity (Target is SuperNode with threshold+ edges and 0 shared neighbors).") }
  else { allowed := true, reason := none }

/-- The spec-level reading of "an edge connecting `x` and `n`": one row of
`edges` whose endpoints are `x` and `n`, in either direction. -/
def hasEdgeBetween (edges : List Edge) (x n : String) : Prop :=
  ∃ e ∈ edges, (e.source = x ∧ e.target = n) ∨ (e.source = n ∧ e.target = x)

/-- The spec-level shared-neighbor predicate of claim C5: some node `n`
carries one edge to the source and one edge to the target. -/
def sharesNeighborSpec (edges : List Edge) (a b : String) : Prop :=
  ∃ n, hasEdgeBetween edges a n ∧ hasEdgeBetween edges b n

/-- What the SQL join in `sharesNeighbor` actually tests, as a Prop: a pair
of edge rows, one incident on `a`, one incident on `b`, sharing an endpoint
(which may be `a` or `b` themselves). -/
def sharesEndpointSpec (edges : List Edge) (a b : String) : Prop :=
  ∃ e1 ∈ edges, ∃ e2 ∈ edges,
    (e1.source = a ∨ e1.target = a) ∧
    (e2.source = b ∨ e2.target = b) ∧
    (e1.target = e2.target ∨ e1.source = e2.source ∨
     e1.target = e2.source ∨ e1.source = e2.target)

/-- Incident-edge count of a node (the COUNT in `isSuperNode`). -/
def degreeCount (edges : List Edge) (id : String) : Nat :=
  (edges.filter (fun e => e.target = id ∨ e.source = id)).length

/-! ## SemanticWeaver and TimelineWeaver (part_005) -/

/-- The orphan query of `SemanticWeaver.weave`: nodes that occur in no edge
(neither as source nor as target), have a non-`NULL` embedding, and are not
of type `root` or `domain`; in table order. -/
def orphanRows (db : DBState) : List NodeRow :=
  db.nodes.filter fun n =>
    (!db.edges.any (fun e => e.source = n.id)) &&
    (!db.edges.any (fun e => e.target = n.id)) &&
    n.embedding.isSome &&
    n.type ≠ "root" && n.type ≠ "domain"

/-- `SemanticWeaver.weave` (part_005 lines 4-67): for each orphan, search
the experience domain for the 3 nearest embeddings, keep matches with score
strictly above `0.85` and a different id, and link the orphan to the best
one with a `RELATED_TO` edge.  The edge is inserted directly through
`insertEdge`; no `LouvainGate` call occurs on this path. -/
def SemanticWeaver.weave (db : DBState) : DBState :=
  (orphanRows db).foldl (fun acc orphan =>
    match orphan.embedding with
    | none => acc
    | some vec =>
      let sims := findSimilar acc vec 3 (some "experience")
      let validMatches := sims.filter fun m => 0.85 < m.score ∧ m.id ≠ orphan.id
      match validMatches.head? with
      | some best => insertEdge acc orphan.id best.id "RELATED_TO"
      | none => acc) db

/-! ## EdgeWeaver gating and CDA relationship gating -/

/-- `EdgeWeaver.safeInsertEdge` (EdgeWeaver.ts lines 127-134): consult
`LouvainGate.check` (default threshold) and insert only when allowed. -/
def EdgeWeaver.safeInsertEdge (db : DBState) (source target type : String) : DBState :=
  if (LouvainGate.check db.edges source target).allowed then
    insertEdge db source target type
  else db

/-- One validated relationship of `Ingestor.ingestCDA` (part_008 lines
222-229): gate through `LouvainGate.check`, insert only when allowed. -/
def Ingestor.cdaInsertRelationship (db : DBState) (entryId relTarget relType : String) :
    DBState :=
  if (LouvainGate.check db.edges entryId relTarget).allowed then
    insertEdge db entryId relTarget relType
  else db

/-! ## LocusLedger hashing (app.js, `LocusLedger.hashContent`) -/

/-- `LocusLedger.hashContent`: MD5 hex digest of the trimmed text.  The MD5
primitive (`Bun.CryptoHasher`) is external and passed as `md5f`. -/
def LocusLedger.hashContent (md5f : String → String) (text : String) : String :=
  md5f (jsTrim text)

/-! ## Ingestor Phase 1 node shapes (part_008) -/

/-- One entry of the lexicon JSON artifact consumed by
`Ingestor.bootstrapLexicon`. -/
structure LexiconConcept where
  id : String
  title : String
  description : Option String
  category : Option String
  tags : Option String
deriving DecidableEq

/-- The node upserted for a lexicon concept (part_008 lines 173-186):
`content` is `item.description || item.title`; no `hash` field is set. -/
def bootstrapLexiconNode (item : LexiconConcept) : NodeInput :=
  { id := item.id
    type := "concept"
    label := some item.title
    content := some (jsOr item.description item.title)
    domain := some "persona"
    layer := some "ontology"
    embedding := none
    hash := none
    meta := some [("category", jsOr item.category ""), ("tags", jsOr item.tags "")] }

/-- The node-insertion loop of `Ingestor.bootstrapLexicon`. -/
def Ingestor.bootstrapLexiconInsert (toBlob : List ℚ → List ℚ) (db : DBState)
    (items : List LexiconConcept) : DBState :=
  items.foldl (fun acc item => insertNode toBlob acc (bootstrapLexiconNode item)) db

/-- One entry of the enriched CDA artifact consumed by `Ingestor.ingestCDA`. -/
structure CdaEntry where
  id : String
  title : String
  definition : Option String
  sectionLabel : String
  explicitTags : Option String
deriving DecidableEq

/-- The node upserted for a CDA directive (part_008 lines 208-219): no
`hash` field is set. -/
def cdaDirectiveNode (entry : CdaEntry) : NodeInput :=
  { id := entry.id
    type := "directive"
    label := some entry.title
    content := entry.definition
    domain := some "persona"
    layer := some "directive"
    embedding := none
    hash := none
    meta := some [("section", entry.sectionLabel), ("tags", jsOr entry.explicitTags "")] }

/-! ## Ingestor Phase 2 (part_008): frontmatter, locus scanning, boxes -/

/-- Find the index of the first occurrence of `pat` in a char list
(`none` when absent). -/
def findSubIdx (pat : List Char) : List Char → Option Nat
  | [] => if pat.isEmpty then some 0 else none
  | c :: cs =>
    if pat.isPrefixOf (c :: cs) then some 0
    else (findSubIdx pat cs).map (· + 1)

/-- The frontmatter block of `processFile`: the anchored frontmatter regex —
the document must begin with three dashes and a newline, and the block runs
lazily up to the first following newline-plus-three-dashes. -/
def frontmatterBlock (content : String) : Option String :=
  if ("---\n".toList).isPrefixOf content.toList then
    match findSubIdx ("\n---".toList) (content.toList.drop 4) with
    | some i => some (String.mk ((content.toList.drop 4).take i))
    | none => none
  else none

/-- Insert a key/value pair into a JS-object model: overwrite in place when
the key exists, append otherwise. -/
def setAssoc (m : List (String × String)) (k v : String) : List (String × String) :=
  if m.any (fun p => p.1 = k) then
    m.map (fun p => if p.1 = k then (k, v) else p)
  else m ++ [(k, v)]

/-- `Ingestor.parseFrontmatter` (part_008 lines 382-391): split the block
into lines, split each line on `:`; when the key part is non-empty and a
`:` was present, record `key.trim() ↦ rest.join(":").trim()`. -/
def Ingestor.parseFrontmatter (text : String) : List (String × String) :=
  (splitOnChar '\n' text.toList).foldl (fun meta line =>
    match splitOnChar ':' line with
    | [] => meta
    | key :: vals =>
      if key ≠ [] ∧ vals ≠ [] then
        setAssoc meta (jsTrim (String.mk key)) (jsTrim (String.mk (intercalateL [':'] vals)))
      else meta) []

/-- The character class `[a-zA-Z0-9-]` of the locus-marker id. -/
def locusIdChar (c : Char) : Bool :=
  (decide (Char.ofNat 97 ≤ c) && decide (c ≤ Char.ofNat 122)) ||
  (decide (Char.ofNat 65 ≤ c) && decide (c ≤ Char.ofNat 90)) ||
  (decide (Char.ofNat 48 ≤ c) && decide (c ≤ Char.ofNat 57)) ||
  c = Char.ofNat 45

/-- The opening text of a locus marker. -/
def locusOpen : List Char := "<!-- locus:".toList

/-- Index of the first position where a locus marker opens (`l.length`
when there is none): the lookahead `(?=<!-- locus:|$)` of the box regex. -/
def findLocusOpenIdx : List Char → Nat
  | [] => 0
  | c :: cs => if locusOpen.isPrefixOf (c :: cs) then 0 else findLocusOpenIdx cs + 1

/-- The box-scanning loop of `Ingestor.processFile` (part_008 lines
310-325), i.e. the global regex
`/<!-- locus:([a-zA-Z0-9-]+) -->\n([\s\S]*?)(?=<!-- locus:|$)/g`:
each valid match yields `(id, body)`; matches whose body capture is empty
are skipped (the code's `continue`, which also leaves `foundBoxes`
unset for them).  Structural recursion on an explicit fuel. -/
def scanBoxesAux : Nat → List Char → List (String × String)
  | _, [] => []
  | 0, _ => []
  | fuel + 1, c :: cs =>
    if locusOpen.isPrefixOf (c :: cs) then
      let afterTag := (c :: cs).drop locusOpen.length
      let idChars := afterTag.takeWhile locusIdChar
      let afterId := afterTag.dropWhile locusIdChar
      if idChars.isEmpty then scanBoxesAux fuel cs
      else if (" -->\n".toList).isPrefixOf afterId then
        let afterClose := afterId.drop 5
        let bodyLen := findLocusOpenIdx afterClose
        let body := afterClose.take bodyLen
        let rest := afterClose.drop bodyLen
        (if body.isEmpty then [] else [(String.mk idChars, String.mk body)]) ++
          scanBoxesAux fuel rest
      else scanBoxesAux fuel cs
    else scanBoxesAux fuel cs

/-- The box-scanning loop over a whole text.  The fuel of `scanBoxesAux` is
the text length: every step both consumes at least one character and spends
one unit of fuel, so the zero-fuel fallback is never reached. -/
def scanBoxes (l : List Char) : List (String × String) := scanBoxesAux l.length l

/-- `filePath.split("/").pop() || "unknown"`. -/
def basename (p : String) : String :=
  match (splitOnChar '/' p.toList).getLast? with
  | some l => if l.isEmpty then "unknown" else String.mk l
  | none => "unknown"

/-- Remove the first occurrence of `pat` (JS `String.prototype.replace`
with a plain-string pattern). -/
def replaceFirst (pat : List Char) : List Char → List Char
  | [] => []
  | c :: cs =>
    if pat.isPrefixOf (c :: cs) ∧ ¬ pat.isEmpty then (c :: cs).drop pat.length
    else c :: replaceFirst pat cs

/-- The fallback box id of `processFile` (part_008 line 329):
`filename.replace(".md", "").toLowerCase().replace(/[^a-z0-9-]/g, "-")`. -/
def slugifyFilename (filename : String) : String :=
  String.mk (((replaceFirst (".md".toList) filename.toList).map Char.toLower).map
    (fun c =>
      if (decide (Char.ofNat 97 ≤ c) && decide (c ≤ Char.ofNat 122)) ||
         (decide (Char.ofNat 48 ≤ c) && decide (c ≤ Char.ofNat 57)) ||
         c = Char.ofNat 45
      then c else Char.ofNat 45))

/-- `Ingestor.processBox` (part_008 lines 340-380).  External parameters:
`md5f` (MD5 primitive), `toBlob` (FAFCAS codec applied by `insertNode`),
`embed` (the embedder, `null` on failure), `extract` (the tokenizer,
producing the serialized `semantic_tokens` value), `weaveF`
(`EdgeWeaver.weave` of the ambient weaver, which only inserts edges).
When the stored hash for `id` equals the MD5 of the trimmed content the
function returns the store unchanged; otherwise it embeds (content longer
than 50 only), upserts the node and weaves edges from the content. -/
def Ingestor.processBox (md5f : String → String) (toBlob : List ℚ → List ℚ)
    (embed : String → Option (List ℚ)) (extract : String → String)
    (weaveF : DBState → String → String → DBState)
    (db : DBState) (id content type : String)
    (meta : List (String × String)) (sourcePath : String) : DBState :=
  let tokens := extract content
  let currentHash := LocusLedger.hashContent md5f content
  let storedHash := getNodeHash db id
  if storedHash = some currentHash then db
  else
    let embedding := if 50 < content.length then embed content else none
    let node : NodeInput :=
      { id := id
        type := type
        label := some (jsOr ((meta.find? (fun p => p.1 = "title")).map Prod.snd)
          (basename sourcePath))
        content := some content
        domain := some "experience"
        layer := some "note"
        embedding := embedding
        hash := some currentHash
        meta := some (meta ++ [("source", sourcePath), ("semantic_tokens", tokens)]) }
    weaveF (insertNode toBlob db node) id content

/-- `Ingestor.processFile` (part_008 lines 296-338): extract frontmatter,
scan for locus boxes and process each (with trimmed body); when no valid
box was found, treat the whole file as one box under the slugified
filename — but only when the content is longer than 10 characters. -/
def Ingestor.processFile (md5f : String → String) (toBlob : List ℚ → List ℚ)
    (embed : String → Option (List ℚ)) (extract : String → String)
    (weaveF : DBState → String → String → DBState)
    (db : DBState) (filePath fileType content : String) : DBState :=
  let fm := match frontmatterBlock content with
    | some b => Ingestor.parseFrontmatter b
    | none => []
  let boxes := scanBoxes content.toList
  if boxes.isEmpty then
    let id := slugifyFilename (basename filePath)
    if 10 < content.length then
      Ingestor.processBox md5f toBlob embed extract weaveF db id content fileType fm filePath
    else db
  else
    boxes.foldl (fun acc pr =>
      Ingestor.processBox md5f toBlob embed extract weaveF acc pr.1 (jsTrim pr.2) fileType
        fm filePath) db

/-- A box-processing job, for stating the re-ingestion frame property. -/
structure BoxJob where
  id : String
  content : String
  type : String
  meta : List (String × String)
  source : String
deriving DecidableEq

/-- Run `processBox` over a list of jobs in order. -/
def Ingestor.runBoxes (md5f : String → String) (toBlob : List ℚ → List ℚ)
    (embed : String → Option (List ℚ)) (extract : String → String)
    (weaveF : DBState → String → String → DBState)
    (db : DBState) (jobs : List BoxJob) : DBState :=
  jobs.foldl (fun acc j =>
    Ingestor.processBox md5f toBlob embed extract weaveF acc j.id j.content j.type j.meta
      j.source) db

/-! ## FAFCAS vector codec (`toFafcas`, part_004 lines 324-344)

Float arithmetic is modelled as exact real arithmetic; the raw-byte
serialization and the zero-copy decode are mutually inverse views of the
same component list, so encode-then-decode is modelled as the component
transformation itself.  A blob is all-zero bytes exactly when every
component is zero. -/

/-- The accumulation loop `sum += val * val` of `toFafcas`. -/
def sumSq (v : List ℝ) : ℝ := v.foldl (fun s x => s + x * x) 0

/-- `Math.sqrt(sum)`: the L2 norm of the vector. -/
noncomputable def magnitude (v : List ℝ) : ℝ := Real.sqrt (sumSq v)

/-- `toFafcas`: when the magnitude exceeds `1e-6` divide every component by
it; otherwise the vector is serialized unchanged. -/
noncomputable def toFafcas (v : List ℝ) : List ℝ :=
  if 1e-6 < magnitude v then v.map (fun x => x / magnitude v) else v

/-! ## BentoBoxer (part_006) and the audit command (part_003)

The Markdown parser and stringifier are the external `unified`/`remark`
library: a top-level block node is modelled by its kind (split-relevant
structure) together with its serialized Markdown text, and stringifying a
root joins the block texts with blank lines, which is how `remark-stringify`
serializes a sequence of top-level blocks. -/

/-- The split-relevant kind of a top-level Markdown block. -/
inductive MdKind where
  | heading : Nat → MdKind
  | thematicBreak : MdKind
  | block : MdKind
deriving DecidableEq

/-- A top-level Markdown block: its kind and its serialized text. -/
structure MdNode where
  kind : MdKind
  text : List Char
deriving DecidableEq

/-- A bento box as produced by `BentoBoxer.createBox`. -/
structure BentoBox where
  locusId : String
  content : List Char
  tokenCount : Nat
  isLeaf : Bool
deriving DecidableEq

/-- The blank-line separator between serialized top-level blocks. -/
def blankSep : List Char := "\n\n".toList

/-- Serialize a root whose children are `nodes`
(`this.processor.stringify({type: "root", children: nodes})`). -/
def stringifyNodes (nodes : List MdNode) : List Char :=
  intercalateL blankSep (nodes.map MdNode.text)

/-- Modelled from the spec: `SEAMAN_CONSTANTS.MAX_SIZE`, the token budget of
a bento box (`≤ MAX_TOKENS, default ~400`); the constants module itself is
not among the sources. -/
def SEAMAN_MAX_SIZE : Nat := 400

/-- `BentoBoxer.createBox`: mint a locus id for the content and package it.
`mint` composes `LocusLedger.hashContent` with `ledger.getOrMintId`
(MD5 and the ledger database are external). -/
def createBox (mint : List Char → String) (content : List Char) (tokenCount : Nat) :
    BentoBox :=
  { locusId := mint content, content := content, tokenCount := tokenCount, isLeaf := true }

/-- `BentoBoxer.packageContent` (part_006 lines 81-116), structural on an
explicit fuel: serialize the group and trim; within budget, emit one box;
otherwise fracture at the first thematic break (dropping the break
itself), else split the node list in half; a single oversized node is
emitted as-is. -/
def packageContentAux (mint : List Char → String) (maxSize : Nat) :
    Nat → List MdNode → List BentoBox
  | 0, nodes =>
    [createBox mint (trimL (stringifyNodes nodes))
      (countTokens (trimL (stringifyNodes nodes)))]
  | fuel + 1, nodes =>
    let content := trimL (stringifyNodes nodes)
    let tokenCount := countTokens content
    if tokenCount ≤ maxSize then [createBox mint content tokenCount]
    else
      let hrIndex := nodes.findIdx (fun n => n.kind = MdKind.thematicBreak)
      if hrIndex < nodes.length then
        packageContentAux mint maxSize fuel (nodes.take hrIndex) ++
          packageContentAux mint maxSize fuel (nodes.drop (hrIndex + 1))
      else if 1 < nodes.length then
        packageContentAux mint maxSize fuel (nodes.take (nodes.length / 2)) ++
          packageContentAux mint maxSize fuel (nodes.drop (nodes.length / 2))
      else [createBox mint content tokenCount]

/-- `BentoBoxer.packageContent`: the fuel is the group size; each fracture
step strictly shrinks the group while spending one unit of fuel, so the
zero-fuel case is only ever reached on groups the budget check stops
anyway. -/
def packageContent (mint : List Char → String) (maxSize : Nat) (nodes : List MdNode) :
    List BentoBox :=
  packageContentAux mint maxSize nodes.length nodes

/-- The grouping condition of `BentoBoxer.process`:
`node.type === "heading" && node.depth && node.depth <= 4`. -/
def headingSplit (n : MdNode) : Bool :=
  match n.kind with
  | MdKind.heading d => decide (d ≠ 0) && decide (d ≤ 4)
  | _ => false

/-- The accumulation loop of `BentoBoxer.process` (part_006 lines 50-74):
open a new group at each H1–H4 heading, flush the current group through
`packageContent`, and flush the remainder at the end. -/
def processGo (mint : List Char → String) (maxSize : Nat) :
    List MdNode → List MdNode → List BentoBox
  | [], current =>
    if current.isEmpty then [] else packageContent mint maxSize current
  | n :: ns, current =>
    if headingSplit n then
      (if current.isEmpty then [] else packageContent mint maxSize current) ++
        processGo mint maxSize ns [n]
    else processGo mint maxSize ns (current ++ [n])

/-- `BentoBoxer.process` over the parsed top-level children.  (A blank
input yields no children and hence no boxes, matching the early return.) -/
def BentoBoxer.process (mint : List Char → String) (maxSize : Nat)
    (nodes : List MdNode) : List BentoBox :=
  processGo mint maxSize nodes []

/-- `assembleBox` (part_003 lines 127-137), without the optional tags
comment (the audit path runs the box command without `--tag`). -/
def assembleBox (box : BentoBox) : List Char :=
  "<!-- locus:".toList ++ box.locusId.toList ++ " -->".toList ++ '\n' :: box.content

/-- The output of the box command (part_003 line 76):
`boxes.map(assembleBox).join("\n\n")`. -/
def boxCommandOutput (boxes : List BentoBox) : List Char :=
  intercalateL blankSep (boxes.map assembleBox)

/-- Position just after the first ` -->` of the list, scanning lazily;
`none` when a newline intervenes or no close exists (the `.` of the marker
regex does not match newlines). -/
def findCloseIdx : List Char → Option Nat
  | [] => none
  | c :: cs =>
    if (" -->".toList).isPrefixOf (c :: cs) then some 4
    else if c = '\n' then none
    else (findCloseIdx cs).map (· + 1)

/-- Strip every match of the comment-marker regex opened by `openTag` and
closed by ` -->` from the text (JS `replace(..., "")` with a global lazy
pattern): at each occurrence of `openTag`, if a close follows on the same
line, drop through the close and continue after it; otherwise keep
scanning one character further.  Structural recursion on an explicit
fuel. -/
def stripComsAux (openTag : List Char) : Nat → List Char → List Char
  | _, [] => []
  | 0, l => l
  | fuel + 1, c :: cs =>
    if openTag.isPrefixOf (c :: cs) then
      match findCloseIdx ((c :: cs).drop openTag.length) with
      | some n => stripComsAux openTag fuel (((c :: cs).drop openTag.length).drop n)
      | none => c :: stripComsAux openTag fuel cs
    else c :: stripComsAux openTag fuel cs

/-- Marker stripping over a whole text; the fuel is the text length (every
step consumes at least one character). -/
def stripComs (openTag : List Char) (l : List Char) : List Char :=
  stripComsAux openTag l.length l

/-- `str.replace(/\s+/g, " ")`: collapse each whitespace run to a single
space.  Structural recursion on an explicit fuel. -/
def collapseWsFuel : Nat → List Char → List Char
  | _, [] => []
  | 0, l => l
  | fuel + 1, c :: cs =>
    if wsChar c then ' ' :: collapseWsFuel fuel (cs.dropWhile wsChar)
    else c :: collapseWsFuel fuel cs

/-- Whitespace-run collapsing over a whole text; the fuel is the text
length. -/
def collapseWs (l : List Char) : List Char := collapseWsFuel l.length l

/-- The marker stripping of the audit command (part_003 lines 107-110):
remove locus comments, then tags comments. -/
def auditStrip (l : List Char) : List Char :=
  stripComs ("<!-- tags:".toList) (stripComs ("<!-- locus:".toList) l)

/-- `runAuditCommand` (part_003 lines 87-123): trim both files, strip the
markers from the boxed one, re-trim, and compare after collapsing
whitespace runs.  `true` is the AUDIT PASSED outcome. -/
def runAudit (sourceText boxedText : List Char) : Bool :=
  let src := trimL sourceText
  let boxed := trimL boxedText
  let stripped := trimL (auditStrip boxed)
  collapseWs src = collapseWs stripped

/-! ## Hybrid search (`search_documents` handler, part_000 lines 222-274)

The model covers the candidate merge, sorting and slicing; the final
response formatting (`score.toFixed(3)`, JSON rendering) only re-renders
the fields and is not modelled numerically. -/

/-- A hit of the vector path (`VectorEngine.search`): its score is the dot
product of the normalized query and candidate embeddings. -/
structure VectorHit where
  id : String
  score : ℚ
  content : String
deriving DecidableEq

/-- A hit of the keyword path (`ResonanceDB.searchText`). -/
structure FtsHit where
  id : String
  title : String
  snippet : String
  rank : ℚ
deriving DecidableEq

/-- A merged search candidate. -/
structure Candidate where
  id : String
  score : ℚ
  preview : String
  source : String
deriving DecidableEq

/-- `r.content.slice(0, 200).replace(/\n/g, " ")`. -/
def previewOf (content : String) : String :=
  String.mk ((content.toList.take 200).map (fun c => if c = '\n' then ' ' else c))

/-- The candidate created for a vector hit. -/
def mkVectorCand (r : VectorHit) : Candidate :=
  { id := r.id, score := r.score, preview := previewOf r.content, source := "vector" }

/-- The candidate created for a keyword-only hit (base score `0.5`). -/
def mkKeywordCand (r : FtsHit) : Candidate :=
  { id := r.id, score := 0.5
    preview := if r.snippet = "" then r.title else r.snippet
    source := "keyword" }

/-- `candidates.set(id, c)` on the insertion-ordered JS `Map`: overwrite in
place when the key exists, append otherwise. -/
def setCand (cands : List Candidate) (c : Candidate) : List Candidate :=
  if cands.any (fun x => x.id = c.id) then
    cands.map (fun x => if x.id = c.id then c else x)
  else cands ++ [c]

/-- The in-place update of an already-present candidate:
`existing.score += 0.2; existing.source = "hybrid"`. -/
def boostCand (c : Candidate) : Candidate :=
  { c with score := c.score + 0.2, source := "hybrid" }

/-- The keyword-path merge step: boost an existing candidate by `0.2` and
retag it `hybrid`, or insert a fresh keyword candidate. -/
def ftsStep (cands : List Candidate) (r : FtsHit) : List Candidate :=
  if cands.any (fun x => x.id = r.id) then
    cands.map (fun x => if x.id = r.id then boostCand x else x)
  else cands ++ [mkKeywordCand r]

/-- The search_documents candidate pipeline: fill the map from the vector
results, merge the keyword results, sort by score descending (JS sort,
stable) and slice to `limit`. -/
def searchDocuments (vec : List VectorHit) (fts : List FtsHit) (limit : Nat) :
    List Candidate :=
  let afterVector := vec.foldl (fun acc r => setCand acc (mkVectorCand r)) []
  let merged := fts.foldl ftsStep afterVector
  (merged.insertionSort (fun a b => b.score ≤ a.score)).take limit

/-! ## `ResonanceDB.searchText` (part_004 lines 272-301) -/

/-- A raw row of the FTS join (title and snippet may be `NULL`). -/
structure FtsRawRow where
  id : String
  title : Option String
  snippet : Option String
  rank : ℚ
deriving DecidableEq

/-- A mapped result row of `searchText`. -/
structure SearchTextRow where
  id : String
  title : String
  snippet : String
  rank : ℚ
deriving DecidableEq

/-- `ResonanceDB.searchText`: run the FTS5 MATCH query (external engine,
which may fail, e.g. on malformed FTS5 syntax or a missing FTS table) and
map the rows; the surrounding try/catch turns any failure into the empty
result list. -/
def ResonanceDB.searchText (ftsQuery : String → Nat → Except String (List FtsRawRow))
    (query : String) (limit : Nat) : List SearchTextRow :=
  match ftsQuery query limit with
  | Except.ok rows =>
    rows.map (fun row =>
      { id := row.id, title := jsOr row.title row.id
        snippet := jsOr row.snippet "", rank := row.rank })
  | Except.error _ => []

/-! ## PipelineValidator (scripts, `PipelineValidator.validate`) -/

/-- An entry of the validator's `errors`/`warnings` lists (rule name and
severity; the interpolated message text is not modelled). -/
structure ValidationMsg where
  rule : String
  severity : String
deriving DecidableEq

/-- `SELECT COUNT(*) FROM nodes WHERE embedding IS NOT NULL`. -/
def countVectors (db : DBState) : Nat :=
  (db.nodes.filter (fun n => n.embedding.isSome)).length

/-- `SELECT COUNT(*) FROM nodes WHERE domain = d`. -/
def countDomain (db : DBState) (d : String) : Nat :=
  (db.nodes.filter (fun n => n.domain = d)).length

/-- The vector-coverage checks of `PipelineValidator.validate` (lines
162-180 of the validator): with `required_vector_coverage = "all"`, an
error when the vector count is below the node count; with `"experience"`,
a warning when the vector count is below the count of nodes whose `domain`
column is the string `resonance` (the SQL literal used by the code).
Returns `(errors, warnings)` contributed by this check. -/
def PipelineValidator.vectorCoverageChecks (required : Option String) (db : DBState) :
    List ValidationMsg × List ValidationMsg :=
  if required = some "all" then
    (if countVectors db < db.nodes.length then
      [{ rule := "vector_coverage", severity := "error" }] else [], [])
  else if required = some "experience" then
    let experienceNodes := countDomain db "resonance"
    ([], if countVectors db < experienceNodes then
      [{ rule := "vector_coverage", severity := "warning" }] else [])
  else ([], [])

/-! ## Concrete inputs used by the closed theorems below -/

/-- A placeholder MD5: prefix tagging (any digest function works for the
statements that do not depend on MD5 internals). -/
def md5X : String → String := fun s => String.append "md5:" s

/-- The identity blob codec (embeddings are not at issue in the node-shape
statements). -/
def idBlob : List ℚ → List ℚ := fun v => v

/-- An embedder that always fails (returns `null`). -/
def embedNone : String → Option (List ℚ) := fun _ => none

/-- A tokenizer returning no tokens. -/
def extractNone : String → String := fun _ => ""

/-- A weaver that emits no edges (the weaver only ever touches the `edges`
table, which the node-frame statements do not inspect). -/
def weaveNone : DBState → String → String → DBState := fun db _ _ => db

/-- The empty store. -/
def dbEmpty : DBState := { nodes := [], edges := [] }

/-- 51 edges incident on the hub `m` (none incident on `o`). -/
def hubEdges : List Edge :=
  [Edge.mk "m" "c01" "T", Edge.mk "m" "c02" "T", Edge.mk "m" "c03" "T", Edge.mk "m" "c04" "T", Edge.mk "m" "c05" "T", Edge.mk "m" "c06" "T", Edge.mk "m" "c07" "T", Edge.mk "m" "c08" "T", Edge.mk "m" "c09" "T", Edge.mk "m" "c10" "T", Edge.mk "m" "c11" "T", Edge.mk "m" "c12" "T", Edge.mk "m" "c13" "T", Edge.mk "m" "c14" "T", Edge.mk "m" "c15" "T", Edge.mk "m" "c16" "T", Edge.mk "m" "c17" "T", Edge.mk "m" "c18" "T", Edge.mk "m" "c19" "T", Edge.mk "m" "c20" "T", Edge.mk "m" "c21" "T", Edge.mk "m" "c22" "T", Edge.mk "m" "c23" "T", Edge.mk "m" "c24" "T", Edge.mk "m" "c25" "T", Edge.mk "m" "c26" "T", Edge.mk "m" "c27" "T", Edge.mk "m" "c28" "T", Edge.mk "m" "c29" "T", Edge.mk "m" "c30" "T", Edge.mk "m" "c31" "T", Edge.mk "m" "c32" "T", Edge.mk "m" "c33" "T", Edge.mk "m" "c34" "T", Edge.mk "m" "c35" "T", Edge.mk "m" "c36" "T", Edge.mk "m" "c37" "T", Edge.mk "m" "c38" "T", Edge.mk "m" "c39" "T", Edge.mk "m" "c40" "T", Edge.mk "m" "c41" "T", Edge.mk "m" "c42" "T", Edge.mk "m" "c43" "T", Edge.mk "m" "c44" "T", Edge.mk "m" "c45" "T", Edge.mk "m" "c46" "T", Edge.mk "m" "c47" "T", Edge.mk "m" "c48" "T", Edge.mk "m" "c49" "T", Edge.mk "m" "c50" "T", Edge.mk "m" "c51" "T"]

/-- An orphan `o` and a hub `m`, both with the one-dimensional unit
embedding, in the experience domain; `m` carries 51 edges. -/
def oRow : NodeRow :=
  { id := "o", type := "note", title := none, content := none, domain := "experience",
    layer := "note", embedding := some [1], hash := none, meta := none }

def mRow : NodeRow :=
  { id := "m", type := "note", title := none, content := none, domain := "experience",
    layer := "note", embedding := some [1], hash := none, meta := none }

def dbSW : DBState := { nodes := [oRow, mRow], edges := hubEdges }

/-- A super-node `b` with 51 spoke edges plus one direct edge to `a`:
`b` has 52 incident edges and `a` and `b` have no common neighbor in the
spec sense, yet the SQL self-join sees the direct edge as a shared
endpoint. -/
def gateEdges : List Edge :=
  Edge.mk "b" "a" "T" ::
  [Edge.mk "b" "d01" "T", Edge.mk "b" "d02" "T", Edge.mk "b" "d03" "T", Edge.mk "b" "d04" "T", Edge.mk "b" "d05" "T", Edge.mk "b" "d06" "T", Edge.mk "b" "d07" "T", Edge.mk "b" "d08" "T", Edge.mk "b" "d09" "T", Edge.mk "b" "d10" "T", Edge.mk "b" "d11" "T", Edge.mk "b" "d12" "T", Edge.mk "b" "d13" "T", Edge.mk "b" "d14" "T", Edge.mk "b" "d15" "T", Edge.mk "b" "d16" "T", Edge.mk "b" "d17" "T", Edge.mk "b" "d18" "T", Edge.mk "b" "d19" "T", Edge.mk "b" "d20" "T", Edge.mk "b" "d21" "T", Edge.mk "b" "d22" "T", Edge.mk "b" "d23" "T", Edge.mk "b" "d24" "T", Edge.mk "b" "d25" "T", Edge.mk "b" "d26" "T", Edge.mk "b" "d27" "T", Edge.mk "b" "d28" "T", Edge.mk "b" "d29" "T", Edge.mk "b" "d30" "T", Edge.mk "b" "d31" "T", Edge.mk "b" "d32" "T", Edge.mk "b" "d33" "T", Edge.mk "b" "d34" "T", Edge.mk "b" "d35" "T", Edge.mk "b" "d36" "T", Edge.mk "b" "d37" "T", Edge.mk "b" "d38" "T", Edge.mk "b" "d39" "T", Edge.mk "b" "d40" "T", Edge.mk "b" "d41" "T", Edge.mk "b" "d42" "T", Edge.mk "b" "d43" "T", Edge.mk "b" "d44" "T", Edge.mk "b" "d45" "T", Edge.mk "b" "d46" "T", Edge.mk "b" "d47" "T", Edge.mk "b" "d48" "T", Edge.mk "b" "d49" "T", Edge.mk "b" "d50" "T", Edge.mk "b" "d51" "T"]

/-- A lexicon concept carrying a description. -/
def item0 : LexiconConcept :=
  { id := "term-x", title := "X", description := some "A concept.", category := none,
    tags := none }

/-- A store holding one experience-domain node with no embedding. -/
def dbExp : DBState :=
  { nodes :=
      [ { id := "n1", type := "note", title := none, content := some "c",
          domain := "experience", layer := "note", embedding := none, hash := none,
          meta := none } ]
    edges := [] }

/-- The unchanged-box job for the store below. -/
def jobC6 : BoxJob :=
  { id := "b1", content := "x", type := "note", meta := [], source := "s.md" }

/-- A store already holding box `b1` with the hash of content `x` under
the digest `md5X`. -/
def dbC6 : DBState :=
  { nodes :=
      [ { id := "b1", type := "note", title := none, content := some "x",
          domain := "experience", layer := "note", embedding := none,
          hash := some "md5:x", meta := none } ]
    edges := [] }

/-- The word lists of the serialized top-level blocks, concatenated: the
whitespace-normalization class of the document. -/
def wordsOfNodes (nodes : List MdNode) : List (List Char) :=
  ((nodes.map MdNode.text).map wordsL).flatten

/-- A fixed ledger mint (the locus ids play no role in the content
statements). -/
def mint0 : List Char → String := fun _ => "x"

/-- A paragraph of `k` whitespace-separated words. -/
def paraW (k : Nat) : List Char := intercalateL [' '] (List.replicate k ['w'])

/-- Two 300-word paragraphs separated by a thematic break: the serialized
group counts 601 tokens, over the 400-token budget, so `packageContent`
fractures at the break and drops it. -/
def nodesCE : List MdNode :=
  [⟨MdKind.block, paraW 300⟩, ⟨MdKind.thematicBreak, "---".toList⟩,
   ⟨MdKind.block, paraW 300⟩]

/-- A small heading-plus-paragraph document. -/
def nodesOK : List MdNode :=
  [⟨MdKind.heading 1, "# T".toList⟩, ⟨MdKind.block, "hello world".toList⟩]

/-- One vector hit and two keyword hits, overlapping on `nodeA`. -/
def vecW : List VectorHit := [{ id := "nodeA", score := 0.9, content := "alpha" }]

def ftsW : List FtsHit :=
  [{ id := "nodeA", title := "tA", snippet := "sA", rank := -1 },
   { id := "nodeB", title := "tB", snippet := "sB", rank := -0.5 }]

end Resonance

namespace Resonance

/-! ## Helper lemmas -/

/-- The boolean `sharesNeighbor` decides `sharesEndpointSpec`. -/
theorem sharesNeighbor_iff (edges : List Edge) (a b : String) :
    sharesNeighbor edges a b = true ↔ sharesEndpointSpec edges a b := by
  simp [sharesNeighbor, sharesEndpointSpec, List.any_eq_true]

/-- The boolean `isSuperNode` decides the degree comparison. -/
theorem isSuperNode_iff (edges : List Edge) (id : String) (threshold : Nat) :
    isSuperNode edges id threshold = true ↔ threshold < degreeCount edges id := by
  simp [isSuperNode, degreeCount]

/-! ## Claim theorems -/

/-- C5 (counterexample).  The claimed characterization of
`LouvainGate.check` is false on `gateEdges`: `b` has 52 > 50 incident
edges and no node `n` carries both an edge to `a` and an edge to `b`
(the only edge at `a` is the direct edge `b↔a`), so the claim demands
`allowed = false`; but the SQL self-join accepts the pair of edge rows
`(b,a),(b,a)` — which share an endpoint — as a "shared neighbor", and the
check allows the edge. -/
theorem c5_counterexample :
    ¬ (((LouvainGate.check gateEdges "a" "b" 50).allowed = false) ↔
        (50 < degreeCount gateEdges "b" ∧ ¬ sharesNeighborSpec gateEdges "a" "b")) := by
  intro hiff
  have h1 : (LouvainGate.check gateEdges "a" "b" 50).allowed = true := by decide
  have h2 : 50 < degreeCount gateEdges "b" := by decide
  have h3 : ¬ sharesNeighborSpec gateEdges "a" "b" := by
    rintro ⟨n, ⟨e1, he1, hc1⟩, ⟨e2, he2, hc2⟩⟩
    have hall : gateEdges.all
        (fun e => decide (e.source = "b") && decide (e.target ≠ "b")) = true := by decide
    have hprop := List.all_eq_true.mp hall
    have h1p := hprop e1 he1
    have h2p := hprop e2 he2
    rw [Bool.and_eq_true, decide_eq_true_iff, decide_eq_true_iff] at h1p h2p
    have hn : n = "b" := by
      rcases hc1 with ⟨hs, _⟩ | ⟨hs, _⟩
      · rw [h1p.1] at hs; exact absurd hs (by decide)
      · rw [← hs, h1p.1]
    rcases hc2 with ⟨_, ht⟩ | ⟨_, ht⟩
    · rw [hn] at ht; exact h2p.2 ht
    · exact h2p.2 ht
  have := hiff.mpr ⟨h2, h3⟩
  rw [h1] at this
  exact Bool.noConfusion this

/-- C5 (amended).  `LouvainGate.check` rejects exactly when the target has
strictly more than `threshold` incident edge rows AND no pair of edge rows
— one incident on the source, one incident on the target — shares an
endpoint (the shared endpoint may be the source or the target themselves,
e.g. via a pre-existing direct edge); in particular a target with degree
at most the threshold is always allowed. -/
theorem c5_louvain_check (edges : List Edge) (s t : String) (thr : Nat) :
    ((LouvainGate.check edges s t thr).allowed = false ↔
      (thr < degreeCount edges t ∧ ¬ sharesEndpointSpec edges s t)) ∧
    (degreeCount edges t ≤ thr → (LouvainGate.check edges s t thr).allowed = true) := by
  constructor
  · by_cases hsup : isSuperNode edges t thr
    · by_cases hsh : sharesNeighbor edges s t
      · simp [LouvainGate.check, hsup, hsh]
        exact fun _ => (sharesNeighbor_iff edges s t).mp hsh
      · simp [LouvainGate.check, hsup, hsh]
        constructor
        · exact (isSuperNode_iff edges t thr).mp hsup
        · intro hspec
          exact hsh ((sharesNeighbor_iff edges s t).mpr hspec)
    · have hdeg : ¬ thr < degreeCount edges t := fun hlt =>
        hsup ((isSuperNode_iff edges t thr).mpr hlt)
      simp [LouvainGate.check, hsup, hdeg]
  · intro hle
    have hsup : ¬ isSuperNode edges t thr = true := by
      rw [isSuperNode_iff]; omega
    simp [LouvainGate.check, hsup]

/-- C6.  When the stored hash of a box id equals the MD5 of the trimmed
current content, `processBox` returns the store unchanged (no upsert, no
embedding, no edges); consequently a run over a list of unchanged boxes
leaves the store unchanged. -/
theorem c6_change_detection_skip :
    (∀ (md5f : String → String) (toBlob : List ℚ → List ℚ)
       (embed : String → Option (List ℚ)) (extract : String → String)
       (weaveF : DBState → String → String → DBState)
       (db : DBState) (id content ty : String) (meta : List (String × String))
       (src : String),
       getNodeHash db id = some (LocusLedger.hashContent md5f content) →
       Ingestor.processBox md5f toBlob embed extract weaveF db id content ty meta src = db) ∧
    (∀ (md5f : String → String) (toBlob : List ℚ → List ℚ)
       (embed : String → Option (List ℚ)) (extract : String → String)
       (weaveF : DBState → String → String → DBState)
       (db : DBState) (jobs : List BoxJob),
       (∀ j ∈ jobs, getNodeHash db j.id = some (LocusLedger.hashContent md5f j.content)) →
       Ingestor.runBoxes md5f toBlob embed extract weaveF db jobs = db) := by
  have hskip : ∀ (md5f : String → String) (toBlob : List ℚ → List ℚ)
      (embed : String → Option (List ℚ)) (extract : String → String)
      (weaveF : DBState → String → String → DBState)
      (db : DBState) (id content ty : String) (meta : List (String × String))
      (src : String),
      getNodeHash db id = some (LocusLedger.hashContent md5f content) →
      Ingestor.processBox md5f toBlob embed extract weaveF db id content ty meta src = db := by
    intro md5f toBlob embed extract weaveF db id content ty meta src h
    simp only [Ingestor.processBox]
    rw [if_pos h]
  refine ⟨hskip, ?_⟩
  intro md5f toBlob embed extract weaveF db jobs hall
  induction jobs with
  | nil => rfl
  | cons j js ih =>
    rw [Ingestor.runBoxes, List.foldl_cons,
      hskip md5f toBlob embed extract weaveF db j.id j.content j.type j.meta j.source
        (hall j (List.mem_cons_self j js))]
    exact ih (fun j2 hj2 => hall j2 (List.mem_cons_of_mem j hj2))

/-- C6 (witness): a store already holding box `b1` at the hash of `"x"`
under `md5X` is left unchanged by re-processing that box. -/
theorem c6_witness :
    (∀ j ∈ [jobC6],
      getNodeHash dbC6 j.id = some (LocusLedger.hashContent md5X j.content)) ∧
    Ingestor.runBoxes md5X idBlob embedNone extractNone weaveNone dbC6 [jobC6] = dbC6 :=
  ⟨by decide, c6_change_detection_skip.2 md5X idBlob embedNone extractNone weaveNone dbC6
    [jobC6] (by decide)⟩

/-- C8 (code divergence).  With `required_vector_coverage = "experience"`
the validator counts nodes with `domain = 'resonance'`, not the
experience-domain nodes its own message refers to: on a store with one
`experience` node and no vectors (vector count 0 < 1 experience node) the
claim requires a warning, but the code emits none because no node has
domain `resonance`.  The `"all"` branch behaves as claimed. -/
theorem c8_vector_coverage_divergence :
    (PipelineValidator.vectorCoverageChecks (some "experience") dbExp).2 = [] ∧
    countVectors dbExp < countDomain dbExp "experience" ∧
    countDomain dbExp "resonance" = 0 ∧
    (∀ db : DBState, (PipelineValidator.vectorCoverageChecks (some "all") db).1 ≠ [] ↔
      countVectors db < db.nodes.length) := by
  refine ⟨by decide, by decide, by decide, ?_⟩
  intro db
  by_cases h : countVectors db < db.nodes.length <;>
    simp [PipelineValidator.vectorCoverageChecks, h]

/-- C10.  `searchText` never propagates a failure of the FTS engine: when
the MATCH query errors, the result is the empty list — indistinguishable
from a query with zero matches. -/
theorem c10_searchText_no_throw :
    ∀ (ftsQuery : String → Nat → Except String (List FtsRawRow)) (q : String)
      (limit : Nat) (e : String),
      ftsQuery q limit = Except.error e →
      ResonanceDB.searchText ftsQuery q limit = [] ∧
      ResonanceDB.searchText ftsQuery q limit =
        ResonanceDB.searchText (fun _ _ => Except.ok []) q limit := by
  intro f q l e h
  constructor
  · rw [ResonanceDB.searchText, h]
  · rw [ResonanceDB.searchText, h, ResonanceDB.searchText]
    simp

/-- C10 (witness): a query whose FTS call fails with a syntax error
returns the empty list. -/
theorem c10_witness :
    ((fun (_ : String) (_ : Nat) =>
        (Except.error "fts5: syntax error" : Except String (List FtsRawRow))) "NEAR("
          10 = Except.error "fts5: syntax error") ∧
    ResonanceDB.searchText
      (fun _ _ => (Except.error "fts5: syntax error" : Except String (List FtsRawRow)))
      "NEAR(" 10 = [] :=
  ⟨rfl, (c10_searchText_no_throw
    (fun _ _ => (Except.error "fts5: syntax error" : Except String (List FtsRawRow)))
    "NEAR(" 10 "fts5: syntax error" rfl).1⟩

end Resonance

namespace Resonance

/-- C2 (counterexample).  The concept node upserted in Phase 1 for a
lexicon item with a description is persisted with non-`NULL` content but a
`NULL` hash — so its stored hash cannot equal any MD5 digest of its
trimmed content. -/
theorem c2_counterexample :
    (Ingestor.bootstrapLexiconInsert idBlob dbEmpty [item0]).nodes.map
      (fun r => (r.id, r.content, r.hash)) =
      [("term-x", some "A concept.", none)] := by decide

/-- C2 (amended).  Phase-2 box nodes are persisted with
`hash = MD5(trimmed content)` and the content itself; the Phase-1 concept
and directive node shapes carry no hash field at all (persisted as
`NULL`). -/
theorem c2_hash_invariant :
    (∀ (md5f : String → String) (toBlob : List ℚ → List ℚ)
       (embed : String → Option (List ℚ)) (extract : String → String)
       (weaveF : DBState → String → String → DBState)
       (db : DBState) (id content ty : String) (meta : List (String × String))
       (src : String),
       (∀ d i c, (weaveF d i c).nodes = d.nodes) →
       getNodeHash db id ≠ some (LocusLedger.hashContent md5f content) →
       content ≠ "" → md5f (jsTrim content) ≠ "" →
       ((Ingestor.processBox md5f toBlob embed extract weaveF db id content ty meta
           src).nodes.getLast?).map (fun r => (r.content, r.hash)) =
         some (some content, some (md5f (jsTrim content)))) ∧
    (∀ item : LexiconConcept, (bootstrapLexiconNode item).hash = none) ∧
    (∀ entry : CdaEntry, (cdaDirectiveNode entry).hash = none) := by
  refine ⟨?_, fun _ => rfl, fun _ => rfl⟩
  intro md5f toBlob embed extract weaveF db id content ty meta src hW hskip hc hh
  simp only [Ingestor.processBox]
  rw [if_neg hskip, hW, insertNode]
  simp only [List.getLast?_concat, Option.map_some']
  rw [jsStringOrNull, jsStringOrNull]
  simp only [LocusLedger.hashContent] at hh ⊢
  rw [if_neg hc, if_neg hh]

/-- C2 (witness): processing a fresh box `b` with content `hello` under
`md5X` stores content `hello` and hash `md5X (jsTrim "hello")`. -/
theorem c2_witness :
    (∀ d i c, (weaveNone d i c).nodes = d.nodes) ∧
    getNodeHash dbEmpty "b" ≠ some (LocusLedger.hashContent md5X "hello") ∧
    ((Ingestor.processBox md5X idBlob embedNone extractNone weaveNone dbEmpty "b" "hello"
        "note" [] "s.md").nodes.getLast?).map (fun r => (r.content, r.hash)) =
      some (some "hello", some (md5X (jsTrim "hello"))) :=
  ⟨fun _ _ _ => rfl, by decide,
    c2_hash_invariant.1 md5X idBlob embedNone extractNone weaveNone dbEmpty "b" "hello"
      "note" [] "s.md" (fun _ _ _ => rfl) (by decide) (by decide) (by decide)⟩

/-- C9 (counterexample).  A marker-free file of at most 10 characters is
not processed at all: `processFile` leaves the store unchanged, whereas
treating the whole file as a single box (as the claim states) would upsert
a node. -/
theorem c9_counterexample :
    Ingestor.processFile md5X idBlob embedNone extractNone weaveNone dbEmpty
        "docs/tiny.md" "document" "tiny text" = dbEmpty ∧
    Ingestor.processBox md5X idBlob embedNone extractNone weaveNone dbEmpty
        (slugifyFilename (basename "docs/tiny.md")) "tiny text" "document" []
        "docs/tiny.md" ≠ dbEmpty := by
  constructor
  · decide
  · decide

/-- C9 (amended).  A Phase-2 file in which the box regex finds no valid
locus marker AND whose content is longer than 10 characters is processed
as one single box whose id is the slugified filename (first `.md`
occurrence removed, lowercased, characters outside `[a-z0-9-]` replaced by
`-`), through the same hash-check/embed/upsert/weave path as
marker-delimited boxes (`processBox`); shorter marker-free files are
skipped entirely. -/
theorem c9_single_box_fallback
    (md5f : String → String) (toBlob : List ℚ → List ℚ)
    (embed : String → Option (List ℚ)) (extract : String → String)
    (weaveF : DBState → String → String → DBState)
    (db : DBState) (filePath ty content : String)
    (hnb : scanBoxes content.toList = []) (hlen : 10 < content.length) :
    Ingestor.processFile md5f toBlob embed extract weaveF db filePath ty content =
      Ingestor.processBox md5f toBlob embed extract weaveF db
        (slugifyFilename (basename filePath)) content ty
        (match frontmatterBlock content with
          | some b => Ingestor.parseFrontmatter b
          | none => []) filePath := by
  simp only [Ingestor.processFile, hnb, List.isEmpty_nil, if_true]
  rw [if_pos hlen]

/-- C9 (witness): a 12-character marker-free file goes through the
single-box fallback. -/
theorem c9_witness :
    scanBoxes ("hello world!" : String).toList = [] ∧
    10 < ("hello world!" : String).length ∧
    Ingestor.processFile md5X idBlob embedNone extractNone weaveNone dbEmpty
        "docs/hello.md" "document" "hello world!" =
      Ingestor.processBox md5X idBlob embedNone extractNone weaveNone dbEmpty
        (slugifyFilename (basename "docs/hello.md")) "hello world!" "document"
        (match frontmatterBlock "hello world!" with
          | some b => Ingestor.parseFrontmatter b
          | none => []) "docs/hello.md" :=
  ⟨by decide, by decide,
    c9_single_box_fallback md5X idBlob embedNone extractNone weaveNone dbEmpty
      "docs/hello.md" "document" "hello world!" (by decide) (by decide)⟩

/-- C1 (counterexample).  `SemanticWeaver` does not consult the gate: on
`dbSW` the orphan `o` is linked to the hub `m` by a `RELATED_TO` edge even
though `LouvainGate.check` rejects exactly that edge (the hub has 51 > 50
incident edges and shares no neighbor with the orphan, which has no edges
at all). -/
theorem c1_counterexample :
    (SemanticWeaver.weave dbSW).edges = dbSW.edges ++ [Edge.mk "o" "m" "RELATED_TO"] ∧
    (LouvainGate.check dbSW.edges "o" "m" 50).allowed = false := by
  have hdot : dotProduct [(1 : ℚ)] [1] = 1 := by
    norm_num [dotProduct, List.range_succ]
  have h1 : orphanRows dbSW = [oRow] := by decide
  have h2 : findSimilar dbSW [1] 3 (some "experience") =
      [{ id := "o", label := "o", score := 1 }, { id := "m", label := "m", score := 1 }] := by
    simp only [findSimilar, dbSW, oRow, mRow, hubEdges]
    norm_num [hdot, List.filter, List.filterMap, jsOr, List.insertionSort, List.orderedInsert]
  have hw : SemanticWeaver.weave dbSW = insertEdge dbSW "o" "m" "RELATED_TO" := by
    rw [SemanticWeaver.weave, h1]
    simp only [List.foldl_cons, List.foldl_nil, oRow]
    rw [h2]
    norm_num [List.filter]
    decide
  exact ⟨by rw [hw]; decide, by decide⟩

/-- C1 (amended).  The edge insertions of `EdgeWeaver` (tag, wiki-link and
metadata edges, via `safeInsertEdge`) and of `Ingestor.ingestCDA` are
admitted through `LouvainGate.check` before the row is inserted: a new
edge row appears only when the gate allows it.  `TimelineWeaver`'s
`SUCCEEDS` edges and `SemanticWeaver`'s orphan-rescue `RELATED_TO` edges
are inserted without consulting the gate. -/
theorem c1_gated_inserters (db : DBState) (s t ty : String)
    (hnew : Edge.mk s t ty ∉ db.edges)
    (hmem : Edge.mk s t ty ∈ (EdgeWeaver.safeInsertEdge db s t ty).edges ∨
      Edge.mk s t ty ∈ (Ingestor.cdaInsertRelationship db s t ty).edges) :
    (LouvainGate.check db.edges s t).allowed = true := by
  by_cases hall : (LouvainGate.check db.edges s t).allowed
  · exact hall
  · exfalso
    have hsafe : EdgeWeaver.safeInsertEdge db s t ty = db := by
      rw [EdgeWeaver.safeInsertEdge, if_neg hall]
    have hcda : Ingestor.cdaInsertRelationship db s t ty = db := by
      rw [Ingestor.cdaInsertRelationship, if_neg hall]
    rw [hsafe, hcda] at hmem
    rcases hmem with h | h <;> exact hnew h

/-- C1 (witness): inserting a fresh edge into an empty store goes through
(the gate allows it), and the inserted row is present. -/
theorem c1_witness :
    Edge.mk "x" "y" "CITES" ∉ dbEmpty.edges ∧
    Edge.mk "x" "y" "CITES" ∈ (EdgeWeaver.safeInsertEdge dbEmpty "x" "y" "CITES").edges ∧
    (LouvainGate.check dbEmpty.edges "x" "y").allowed = true :=
  ⟨by decide, by decide,
    c1_gated_inserters dbEmpty "x" "y" "CITES" (by decide) (Or.inl (by decide))⟩

end Resonance

namespace Resonance

/-- Accumulator shift for the square-sum fold. -/
theorem sumSq_foldl (v : List ℝ) : ∀ a : ℝ,
    v.foldl (fun s x => s + x * x) a = a + v.foldl (fun s x => s + x * x) 0 := by
  induction v with
  | nil => intro a; simp
  | cons x xs ih =>
    intro a
    simp only [List.foldl_cons]
    rw [ih (a + x * x), ih (0 + x * x)]
    ring

/-- Unfolding `sumSq` over a cons cell. -/
theorem sumSq_cons (x : ℝ) (xs : List ℝ) : sumSq (x :: xs) = x * x + sumSq xs := by
  rw [sumSq, sumSq, List.foldl_cons, sumSq_foldl]
  ring

/-- A sum of squares is nonnegative. -/
theorem sumSq_nonneg (v : List ℝ) : 0 ≤ sumSq v := by
  induction v with
  | nil => simp [sumSq]
  | cons x xs ih => rw [sumSq_cons]; nlinarith [mul_self_nonneg x]

/-- Dividing every component by `m` divides the square sum by `m²`. -/
theorem sumSq_map_div (v : List ℝ) (m : ℝ) :
    sumSq (v.map (fun x => x / m)) = sumSq v / (m * m) := by
  induction v with
  | nil => simp [sumSq]
  | cons x xs ih =>
    simp only [List.map_cons, sumSq_cons, ih]
    ring

/-- C3 (amended).  In exact arithmetic the FAFCAS encoder is unit-norm
only above the epsilon guard: every input vector whose L2 norm exceeds
`1e-6` is encoded with norm exactly 1 (within the claimed `1e-5`
tolerance); a vector with norm at most `1e-6` is serialized unchanged (in
particular the zero vector as all-zero bytes). -/
theorem c3_fafcas_norm (v : List ℝ) :
    (1e-6 < magnitude v → |magnitude (toFafcas v) - 1| ≤ 1e-5) ∧
    (magnitude v ≤ 1e-6 → toFafcas v = v) := by
  constructor
  · intro h
    have hm0 : 0 < magnitude v := lt_trans (by norm_num) h
    have hS : magnitude v * magnitude v = sumSq v := Real.mul_self_sqrt (sumSq_nonneg v)
    have hSpos : 0 < sumSq v := by rw [← hS]; exact mul_pos hm0 hm0
    rw [toFafcas, if_pos h, magnitude, sumSq_map_div, hS, div_self (ne_of_gt hSpos),
      Real.sqrt_one]
    norm_num
  · intro h
    rw [toFafcas, if_neg (not_lt.mpr h)]

/-- C3 (counterexample).  The vector `[1e-7]` has norm `1e-7 ≤ 1e-6`, so
`toFafcas` serializes it unchanged: the stored blob is neither unit-norm
within `1e-5` nor all-zero. -/
theorem c3_counterexample :
    ¬ (|magnitude (toFafcas [(1e-7 : ℝ)]) - 1| ≤ 1e-5 ∨
        ∀ x ∈ toFafcas [(1e-7 : ℝ)], x = 0) := by
  have hs : sumSq [(1e-7 : ℝ)] = 1e-7 * 1e-7 := by
    rw [sumSq_cons]; simp [sumSq]
  have hm : magnitude [(1e-7 : ℝ)] = 1e-7 := by
    have h2 : (1e-7 : ℝ) * 1e-7 = (1e-7 : ℝ) ^ 2 := by ring
    rw [magnitude, hs, h2, Real.sqrt_sq (by norm_num)]
  have hid : toFafcas [(1e-7 : ℝ)] = [(1e-7 : ℝ)] := by
    rw [toFafcas, if_neg]
    rw [hm]; norm_num
  intro hor
  rcases hor with h | h
  · rw [hid, hm] at h
    rw [abs_sub_comm, abs_of_pos (by norm_num : (0 : ℝ) < 1 - 1e-7)] at h
    norm_num at h
  · have h7 := h (1e-7) (by rw [hid]; simp)
    norm_num at h7

/-- C3 (witness): the vector `[1]` clears the epsilon guard and is stored
unit-norm. -/
theorem c3_witness :
    1e-6 < magnitude [(1 : ℝ)] ∧ |magnitude (toFafcas [(1 : ℝ)]) - 1| ≤ 1e-5 := by
  have hm : magnitude [(1 : ℝ)] = 1 := by
    have h1 : sumSq [(1 : ℝ)] = 1 := by rw [sumSq_cons]; simp [sumSq]
    rw [magnitude, h1, Real.sqrt_one]
  exact ⟨by rw [hm]; norm_num, (c3_fafcas_norm [(1 : ℝ)]).1 (by rw [hm]; norm_num)⟩

end Resonance

namespace Resonance

/-- Splicing a whitespace character splits the word scan. -/
theorem wordsAux_append_ws {c : Char} (hc : wsChar c = true) :
    ∀ (a b acc : List Char), wordsAux (a ++ c :: b) acc = wordsAux a acc ++ wordsL b := by
  intro a
  induction a with
  | nil =>
    intro b acc
    simp only [List.nil_append, wordsAux, hc, if_true, wordsL]
    by_cases hacc : acc.isEmpty <;> simp [hacc, wordsAux]
  | cons x a ih =>
    intro b acc
    simp only [List.cons_append, wordsAux]
    by_cases hx : wsChar x
    · simp only [hx, if_true]
      by_cases hacc : acc.isEmpty <;> simp [hacc, ih]
    · simp only [hx, if_false]
      exact ih b (x :: acc)

theorem wordsL_append_ws {c : Char} (hc : wsChar c = true) (a b : List Char) :
    wordsL (a ++ c :: b) = wordsL a ++ wordsL b :=
  wordsAux_append_ws hc a b []

theorem wordsL_cons_ws {c : Char} (hc : wsChar c = true) (l : List Char) :
    wordsL (c :: l) = wordsL l := by
  simp [wordsL, wordsAux, hc]

/-- Words of a blank-line join: the concatenation of the words of the
parts. -/
theorem wordsL_intercalate_blank :
    ∀ parts : List (List Char),
      wordsL (intercalateL blankSep parts) = (parts.map wordsL).flatten := by
  intro parts
  induction parts with
  | nil => simp [intercalateL, wordsL, wordsAux]
  | cons x rest ih =>
    cases rest with
    | nil => simp [intercalateL]
    | cons y xs =>
      simp only [intercalateL]
      have h2 : x ++ blankSep ++ intercalateL blankSep (y :: xs)
          = x ++ '\n' :: ('\n' :: intercalateL blankSep (y :: xs)) := by
        have hsep : blankSep = '\n' :: '\n' :: ([] : List Char) := by decide
        rw [hsep]
        simp
      rw [h2, wordsL_append_ws (by decide), wordsL_cons_ws (by decide), ih]
      simp

/-- An all-whitespace text has no words. -/
theorem wordsL_allws : ∀ {w : List Char}, (∀ c ∈ w, wsChar c = true) → wordsAux w [] = [] := by
  intro w
  induction w with
  | nil => intro _; rfl
  | cons c cs ih =>
    intro h
    simp only [wordsAux, h c (List.mem_cons_self c cs), if_true, List.isEmpty_nil]
    exact ih (fun d hd => h d (List.mem_cons_of_mem c hd))

/-- An all-whitespace continuation only flushes the accumulator. -/
theorem wordsAux_allws_acc {w : List Char} (hw : ∀ c ∈ w, wsChar c = true) :
    ∀ acc, wordsAux w acc = wordsAux [] acc := by
  intro acc
  match w with
  | [] => rfl
  | c :: cs =>
    have hc := hw c (List.mem_cons_self c cs)
    have hcs : ∀ d ∈ cs, wsChar d = true := fun d hd => hw d (List.mem_cons_of_mem c hd)
    simp only [wordsAux, hc, if_true]
    by_cases hacc : acc.isEmpty
    · rw [if_pos hacc]
      have : acc = [] := List.isEmpty_iff.mp hacc
      subst this
      simp [wordsAux, wordsL_allws hcs]
    · rw [if_neg hacc, wordsL_allws hcs]
      simp [wordsAux, hacc]

/-- An all-whitespace suffix does not change the word scan. -/
theorem wordsAux_append_allws {w : List Char} (hw : ∀ c ∈ w, wsChar c = true) :
    ∀ (a acc : List Char), wordsAux (a ++ w) acc = wordsAux a acc := by
  intro a
  induction a with
  | nil => intro acc; simp only [List.nil_append]; exact wordsAux_allws_acc hw acc
  | cons x a ih =>
    intro acc
    simp only [List.cons_append, wordsAux]
    by_cases hx : wsChar x
    · simp only [hx, if_true]
      by_cases hacc : acc.isEmpty <;> simp [hacc, ih]
    · simp only [hx, if_false]
      exact ih (x :: acc)

/-- Leading whitespace does not change the word list. -/
theorem wordsL_dropWhile_ws (l : List Char) : wordsL (l.dropWhile wsChar) = wordsL l := by
  induction l with
  | nil => rfl
  | cons c cs ih =>
    by_cases hc : wsChar c
    · rw [List.dropWhile_cons_of_pos hc, ih, wordsL_cons_ws hc]
    · rw [List.dropWhile_cons_of_neg hc]

/-- Trimming does not change the word list. -/
theorem wordsL_trim (l : List Char) : wordsL (trimL l) = wordsL l := by
  rw [trimL]
  set d := l.dropWhile wsChar with hd
  have hsplit : d.reverse = d.reverse.takeWhile wsChar ++ d.reverse.dropWhile wsChar :=
    (List.takeWhile_append_dropWhile wsChar d.reverse).symm
  have hd2 : d = (d.reverse.dropWhile wsChar).reverse ++ (d.reverse.takeWhile wsChar).reverse := by
    conv_lhs => rw [← List.reverse_reverse d, hsplit]
    rw [List.reverse_append]
  have hwst : ∀ c ∈ (d.reverse.takeWhile wsChar).reverse, wsChar c = true := by
    intro c hcmem
    exact List.mem_takeWhile_imp (List.mem_reverse.mp hcmem)
  calc wordsL (d.reverse.dropWhile wsChar).reverse
      = wordsL ((d.reverse.dropWhile wsChar).reverse ++ (d.reverse.takeWhile wsChar).reverse) := by
        simp only [wordsL]
        rw [wordsAux_append_allws hwst]
    _ = wordsL d := by rw [← hd2]
    _ = wordsL l := wordsL_dropWhile_ws l

/-- Words of the serialized root. -/
theorem stringify_words (nodes : List MdNode) :
    wordsL (stringifyNodes nodes) = wordsOfNodes nodes := by
  rw [stringifyNodes, wordsL_intercalate_blank, wordsOfNodes]

/-- `wordsOfNodes` distributes over concatenation of node lists. -/
theorem wordsOfNodes_append (a b : List MdNode) :
    wordsOfNodes (a ++ b) = wordsOfNodes a ++ wordsOfNodes b := by
  simp [wordsOfNodes]

/-- `packageContent` (fuel form) preserves the document words when no
group member is a thematic break. -/
theorem pcAux_words (mint : List Char → String) (maxSize : Nat) :
    ∀ (fuel : Nat) (nodes : List MdNode), nodes.length ≤ fuel →
      (∀ n ∈ nodes, n.kind ≠ MdKind.thematicBreak) →
      ((packageContentAux mint maxSize fuel nodes).map (fun b => wordsL b.content)).flatten
        = wordsOfNodes nodes := by
  intro fuel
  induction fuel with
  | zero =>
    intro nodes hlen _
    have hnil : nodes = [] := List.eq_nil_of_length_eq_zero (Nat.le_zero.mp hlen)
    subst hnil
    simp [packageContentAux, createBox, wordsL_trim, stringify_words, wordsOfNodes]
  | succ fuel ih =>
    intro nodes hlen hhr
    simp only [packageContentAux]
    by_cases htok : countTokens (trimL (stringifyNodes nodes)) ≤ maxSize
    · rw [if_pos htok]
      simp [createBox, wordsL_trim, stringify_words, wordsOfNodes]
    · rw [if_neg htok]
      have hfind : nodes.findIdx (fun n => n.kind = MdKind.thematicBreak) = nodes.length := by
        rw [List.findIdx_eq_length]
        intro x hx
        simp only [decide_eq_false_iff_not]
        exact hhr x hx
      rw [hfind, if_neg (lt_irrefl nodes.length)]
      by_cases hlen2 : 1 < nodes.length
      · rw [if_pos hlen2]
        have h1 : (nodes.take (nodes.length / 2)).length ≤ fuel := by
          simp only [List.length_take]
          omega
        have h2 : (nodes.drop (nodes.length / 2)).length ≤ fuel := by
          simp only [List.length_drop]
          omega
        rw [List.map_append, List.flatten_append,
          ih _ h1 (fun n hn => hhr n (List.mem_of_mem_take hn)),
          ih _ h2 (fun n hn => hhr n (List.mem_of_mem_drop hn)),
          ← wordsOfNodes_append, List.take_append_drop]
      · rw [if_neg hlen2]
        simp [createBox, wordsL_trim, stringify_words, wordsOfNodes]

/-- The grouping loop of `BentoBoxer.process` preserves the document words
when no top-level block is a thematic break. -/
theorem processGo_words (mint : List Char → String) (maxSize : Nat) :
    ∀ (ns current : List MdNode),
      (∀ n ∈ current ++ ns, n.kind ≠ MdKind.thematicBreak) →
      ((processGo mint maxSize ns current).map (fun b => wordsL b.content)).flatten
        = wordsOfNodes (current ++ ns) := by
  intro ns
  induction ns with
  | nil =>
    intro current hhr
    rw [processGo]
    by_cases hcur : current.isEmpty
    · rw [if_pos hcur]
      have hc : current = [] := List.isEmpty_iff.mp hcur
      subst hc
      rfl
    · rw [if_neg hcur, packageContent,
        pcAux_words mint maxSize current.length current le_rfl
          (fun n hn => hhr n (by simpa using hn))]
      simp
  | cons n ns ih =>
    intro current hhr
    rw [processGo]
    by_cases hsplit : headingSplit n
    · rw [if_pos hsplit, List.map_append, List.flatten_append]
      have hflush : (((if current.isEmpty then [] else
          packageContent mint maxSize current)).map (fun b => wordsL b.content)).flatten
          = wordsOfNodes current := by
        by_cases hcur : current.isEmpty
        · rw [if_pos hcur]
          have hc : current = [] := List.isEmpty_iff.mp hcur
          subst hc
          rfl
        · rw [if_neg hcur, packageContent,
            pcAux_words mint maxSize current.length current le_rfl
              (fun x hx => hhr x (List.mem_append_left _ hx))]
      have hrest : ∀ x ∈ [n] ++ ns, x.kind ≠ MdKind.thematicBreak := by
        intro x hx
        rcases List.mem_append.mp hx with h | h
        · rw [List.mem_singleton.mp h]
          exact hhr n (List.mem_append_right _ (List.mem_cons_self n ns))
        · exact hhr x (List.mem_append_right _ (List.mem_cons_of_mem n h))
      rw [hflush, ih [n] hrest, ← wordsOfNodes_append, List.singleton_append]
    · rw [if_neg hsplit]
      have hall : ∀ x ∈ (current ++ [n]) ++ ns, x.kind ≠ MdKind.thematicBreak := by
        intro x hx
        apply hhr
        rw [List.append_assoc, List.singleton_append] at hx
        exact hx
      rw [ih (current ++ [n]) hall]
      congr 1
      rw [List.append_assoc, List.singleton_append]

/-- C4 (amended).  For every parsed document none of whose top-level
blocks is a thematic break, the blank-line concatenation of the box
contents produced by `BentoBoxer.process` equals the serialized document
up to whitespace normalization (equal word sequences) — the equivalence
the audit command checks after stripping markers.  When an oversized group
is fractured at a thematic break, the break itself is dropped
(counterexample). -/
theorem c4_boxer_roundtrip (mint : List Char → String) (maxSize : Nat)
    (nodes : List MdNode) (hhr : ∀ n ∈ nodes, n.kind ≠ MdKind.thematicBreak) :
    wordsL (intercalateL blankSep
        ((BentoBoxer.process mint maxSize nodes).map BentoBox.content))
      = wordsL (stringifyNodes nodes) := by
  rw [wordsL_intercalate_blank, stringify_words, BentoBoxer.process, List.map_map]
  have hres := processGo_words mint maxSize nodes [] (by simpa using hhr)
  simpa using hres

set_option maxRecDepth 100000 in
/-- C4 (counterexample).  On `nodesCE` the oversized group fractures at the
thematic break and the `---` separator is lost: the concatenated box
contents differ from the serialized document even after whitespace
normalization, and the audit command reports divergence on the reassembled
output. -/
theorem c4_counterexample :
    runAudit (stringifyNodes nodesCE)
      (boxCommandOutput (BentoBoxer.process mint0 SEAMAN_MAX_SIZE nodesCE)) = false ∧
    wordsL (intercalateL blankSep
        ((BentoBoxer.process mint0 SEAMAN_MAX_SIZE nodesCE).map BentoBox.content)) ≠
      wordsL (stringifyNodes nodesCE) := ⟨by decide, by decide⟩

/-- C4 (witness): a break-free heading-plus-paragraph document
round-trips. -/
theorem c4_witness :
    (∀ n ∈ nodesOK, n.kind ≠ MdKind.thematicBreak) ∧
    wordsL (intercalateL blankSep
        ((BentoBoxer.process mint0 SEAMAN_MAX_SIZE nodesOK).map BentoBox.content)) =
      wordsL (stringifyNodes nodesOK) :=
  ⟨by decide, c4_boxer_roundtrip mint0 SEAMAN_MAX_SIZE nodesOK (by decide)⟩

end Resonance

namespace Resonance

/-- `boostCand` does not change the id. -/
theorem boostCand_id (c : Candidate) : (boostCand c).id = c.id := rfl

/-- `Map.set` with a fresh key appends. -/
theorem setCand_fresh (L : List Candidate) (c : Candidate)
    (h : ¬ L.any (fun x => x.id = c.id) = true) : setCand L c = L ++ [c] := by
  rw [setCand, if_neg h]

/-- Phase 1: over fresh ids, the vector fold appends the vector
candidates in order. -/
theorem vecFold_eq (vec : List VectorHit) :
    ∀ L : List Candidate,
      (∀ v ∈ vec, ¬ L.any (fun x => x.id = v.id) = true) →
      (vec.map (fun v => v.id)).Nodup →
      vec.foldl (fun acc r => setCand acc (mkVectorCand r)) L = L ++ vec.map mkVectorCand := by
  induction vec with
  | nil => intro L _ _; simp
  | cons v vs ih =>
    intro L hfresh hnd
    simp only [List.foldl_cons]
    have hset : setCand L (mkVectorCand v) = L ++ [mkVectorCand v] :=
      setCand_fresh L (mkVectorCand v) (hfresh v (List.mem_cons_self v vs))
    rw [hset, ih (L ++ [mkVectorCand v])]
    · simp
    · intro w hw
      have hvw : v.id ≠ w.id := by
        intro heq
        have : w.id ∈ vs.map (fun v => v.id) := List.mem_map_of_mem _ hw
        rw [← heq] at this
        exact (List.nodup_cons.mp (by simpa using hnd)).1 this
      intro hany
      rcases List.any_eq_true.mp hany with ⟨x, hx, hxw⟩
      rcases List.mem_append.mp hx with hxL | hxone
      · exact hfresh w (List.mem_cons_of_mem v hw)
          (List.any_eq_true.mpr ⟨x, hxL, hxw⟩)
      · have : x = mkVectorCand v := List.mem_singleton.mp hxone
        subst this
        exact hvw (of_decide_eq_true hxw)
    · exact (List.nodup_cons.mp (by simpa using hnd)).2

/-- Boosting some candidates does not change the id column. -/
theorem ids_map_boostIf (L : List Candidate) (fid : String) :
    (L.map (fun x => if x.id = fid then boostCand x else x)).map (fun c => c.id) =
      L.map (fun c => c.id) := by
  rw [List.map_map]
  apply List.map_congr_left
  intro c _
  by_cases hp : c.id = fid <;> simp [hp, boostCand]

theorem any_id_map_boostIf (L : List Candidate) (fid g : String) :
    (L.map (fun x => if x.id = fid then boostCand x else x)).any (fun x => x.id = g) =
      L.any (fun x => x.id = g) := by
  induction L with
  | nil => rfl
  | cons c cs ih =>
    simp only [List.map_cons, List.any_cons, ih]
    by_cases hp : c.id = fid <;> simp [hp, boostCand]

/-- Phase 2: the keyword fold boosts exactly the candidates whose id occurs
among the FTS hits and appends a keyword candidate for each fresh FTS hit,
in order. -/
theorem ftsFold_char :
    ∀ (fts : List FtsHit) (L : List Candidate),
      (L.map (fun c => c.id)).Nodup → (fts.map (fun f => f.id)).Nodup →
      fts.foldl ftsStep L =
        L.map (fun c => if fts.any (fun f => f.id = c.id) then boostCand c else c) ++
          (fts.filter (fun f => ¬ L.any (fun x => x.id = f.id))).map mkKeywordCand := by
  intro fts
  induction fts with
  | nil => intro L _ _; simp
  | cons f fs ih =>
    intro L hL hf
    have hfnotin : f.id ∉ fs.map (fun f2 => f2.id) :=
      (List.nodup_cons.mp (by simpa using hf)).1
    have hfsnd : (fs.map (fun f2 => f2.id)).Nodup :=
      (List.nodup_cons.mp (by simpa using hf)).2
    have hfs_any_f : (fs.any fun f2 => decide (f2.id = f.id)) = false := by
      rw [List.any_eq_false]
      intro f2 hf2
      simp only [decide_eq_true_eq]
      intro heq
      exact hfnotin (heq ▸ List.mem_map_of_mem _ hf2)
    simp only [List.foldl_cons]
    rw [ftsStep]
    by_cases hmem : L.any (fun x => x.id = f.id) = true
    · rw [if_pos hmem]
      rw [ih (L.map (fun x => if x.id = f.id then boostCand x else x))
        (by rw [ids_map_boostIf]; exact hL) hfsnd]
      congr 1
      · rw [List.map_map]
        apply List.map_congr_left
        intro c _
        simp only [Function.comp_apply]
        by_cases hcf : c.id = f.id
        · rw [if_pos hcf]
          rw [if_neg (by rw [boostCand_id, hcf, hfs_any_f]; exact Bool.false_ne_true)]
          rw [if_pos (by simp [List.any_cons, hcf])]
        · rw [if_neg hcf]
          have hfc : decide (f.id = c.id) = false := by
            simp only [decide_eq_false_iff_not]
            exact fun h => hcf h.symm
          have hcond : ((f :: fs).any fun f2 => decide (f2.id = c.id)) =
              (fs.any fun f2 => decide (f2.id = c.id)) := by
            simp only [List.any_cons]
            rw [hfc, Bool.false_or]
          rw [hcond]
      · apply congrArg (List.map mkKeywordCand)
        rw [List.filter_cons]
        rw [if_neg (by simp [hmem])]
        apply List.filter_congr
        intro g _
        rw [any_id_map_boostIf]
    · rw [if_neg hmem]
      have hnd2 : ((L ++ [mkKeywordCand f]).map (fun c => c.id)).Nodup := by
        rw [List.map_append, List.nodup_append]
        refine ⟨hL, by simp, ?_⟩
        intro a haL haF
        have ha : a = f.id := by simpa using haF
        subst ha
        rcases List.mem_map.mp haL with ⟨c, hcL, hcid⟩
        exact absurd (List.any_eq_true.mpr ⟨c, hcL, by simp [hcid]⟩) hmem
      rw [ih (L ++ [mkKeywordCand f]) hnd2 hfsnd]
      rw [List.map_append]
      have hkwf : ([mkKeywordCand f].map
          (fun c => if (fs.any fun f2 => decide (f2.id = c.id)) = true
            then boostCand c else c)) = [mkKeywordCand f] := by
        simp only [List.map_cons, List.map_nil]
        rw [if_neg]
        rw [show (mkKeywordCand f).id = f.id from rfl, hfs_any_f]
        exact Bool.false_ne_true
      rw [hkwf]
      have hfilter : (fs.filter
          (fun g => decide (¬ ((L ++ [mkKeywordCand f]).any
            fun x => decide (x.id = g.id)) = true))) =
          (fs.filter (fun g => decide (¬ (L.any fun x => decide (x.id = g.id)) = true))) := by
        apply List.filter_congr
        intro g hg
        have hgf : decide ((mkKeywordCand f).id = g.id) = false := by
          simp only [decide_eq_false_iff_not]
          intro h
          have hgid : g.id = f.id := h.symm
          exact hfnotin (hgid ▸ List.mem_map_of_mem _ hg)
        have hone : ([mkKeywordCand f].any fun x => decide (x.id = g.id)) = false := by
          simp only [List.any_cons, List.any_nil, Bool.or_false]
          exact hgf
        rw [List.any_append, hone, Bool.or_false]
      rw [hfilter]
      have hmapL : (L.map (fun c => if (fs.any fun f2 => decide (f2.id = c.id)) = true
            then boostCand c else c)) =
          (L.map (fun c => if ((f :: fs).any fun f2 => decide (f2.id = c.id)) = true
            then boostCand c else c)) := by
        apply List.map_congr_left
        intro c hcL
        have hfc : decide (f.id = c.id) = false := by
          simp only [decide_eq_false_iff_not]
          intro h
          exact absurd (List.any_eq_true.mpr ⟨c, hcL, by simp [h.symm]⟩) hmem
        simp only [List.any_cons, hfc, Bool.false_or]
      rw [hmapL]
      rw [List.filter_cons]
      rw [if_pos (by simp [hmem])]
      simp [List.append_assoc]

/-- C7.  Hybrid-search fusion: for ids hit by both paths the final score
is the vector dot-product score plus `0.2` with source `hybrid`; keyword-only
ids score exactly `0.5` with source `keyword`; vector-only ids keep their
dot-product score with source `vector`; and the returned candidate list is
sorted by score descending with length at most `limit`.  The id columns of
each path are distinct (`id` is the nodes primary key). -/
theorem c7_hybrid_fusion (vec : List VectorHit) (fts : List FtsHit) (limit : Nat)
    (hv : (vec.map (fun v => v.id)).Nodup) (hf : (fts.map (fun f => f.id)).Nodup) :
    (∀ r ∈ searchDocuments vec fts limit,
      ((∃ v ∈ vec, v.id = r.id) → (∃ f ∈ fts, f.id = r.id) →
        r.source = "hybrid" ∧ ∃ v ∈ vec, v.id = r.id ∧ r.score = v.score + 0.2) ∧
      ((∃ f ∈ fts, f.id = r.id) → (¬ ∃ v ∈ vec, v.id = r.id) →
        r.source = "keyword" ∧ r.score = 0.5) ∧
      ((∃ v ∈ vec, v.id = r.id) → (¬ ∃ f ∈ fts, f.id = r.id) →
        r.source = "vector" ∧ ∃ v ∈ vec, v.id = r.id ∧ r.score = v.score)) ∧
    (searchDocuments vec fts limit).Pairwise (fun a b => b.score ≤ a.score) ∧
    (searchDocuments vec fts limit).length ≤ limit := by
  have hids : ((vec.map mkVectorCand).map (fun c => c.id)).Nodup := by
    rw [List.map_map]
    exact hv
  have hmerged : fts.foldl ftsStep
      (vec.foldl (fun acc r => setCand acc (mkVectorCand r)) []) =
      (vec.map mkVectorCand).map
        (fun c => if fts.any (fun f => f.id = c.id) then boostCand c else c) ++
      (fts.filter (fun f => ¬ (vec.map mkVectorCand).any (fun x => x.id = f.id))).map
        mkKeywordCand := by
    rw [vecFold_eq vec [] (fun v _ => by simp) hv]
    simp only [List.nil_append]
    exact ftsFold_char fts (vec.map mkVectorCand) hids hf
  refine ⟨?_, ?_, ?_⟩
  · intro r hr
    have hrM : r ∈ (vec.map mkVectorCand).map
        (fun c => if fts.any (fun f => f.id = c.id) then boostCand c else c) ++
        (fts.filter (fun f => ¬ (vec.map mkVectorCand).any (fun x => x.id = f.id))).map
          mkKeywordCand := by
      simp only [searchDocuments] at hr
      rw [hmerged] at hr
      exact (List.mem_insertionSort _).mp (List.mem_of_mem_take hr)
    rcases List.mem_append.mp hrM with hA | hB
    · rcases List.mem_map.mp hA with ⟨c, hc, hcr⟩
      rcases List.mem_map.mp hc with ⟨v, hvvec, hvc⟩
      subst hvc
      have hrid : r.id = v.id := by
        by_cases hany : (fts.any fun f => decide (f.id = (mkVectorCand v).id)) = true
        · rw [if_pos hany] at hcr
          rw [← hcr]
          rfl
        · rw [if_neg hany] at hcr
          rw [← hcr]
          rfl
      refine ⟨?_, ?_, ?_⟩
      · intro _ hexf
        have hany : (fts.any fun f => decide (f.id = (mkVectorCand v).id)) = true := by
          rcases hexf with ⟨f1, hf1, hidf⟩
          exact List.any_eq_true.mpr ⟨f1, hf1, by simp [hidf, hrid, mkVectorCand]⟩
        rw [if_pos hany] at hcr
        subst hcr
        exact ⟨rfl, v, hvvec, rfl, rfl⟩
      · intro _ hnov
        exact absurd ⟨v, hvvec, hrid.symm⟩ hnov
      · intro _ hnof
        have hany : ¬ (fts.any fun f => decide (f.id = (mkVectorCand v).id)) = true := by
          intro hany
          rcases List.any_eq_true.mp hany with ⟨f1, hf1, hidf⟩
          exact hnof ⟨f1, hf1, by
            have : f1.id = v.id := of_decide_eq_true hidf
            rw [this, ← hrid]⟩
        rw [if_neg hany] at hcr
        subst hcr
        exact ⟨rfl, v, hvvec, rfl, rfl⟩
    · rcases List.mem_map.mp hB with ⟨g, hg, hgr⟩
      have hgmem : g ∈ fts := List.mem_of_mem_filter hg
      have hfresh : ¬ ((vec.map mkVectorCand).any (fun x => x.id = g.id)) = true := by
        have := List.of_mem_filter hg
        simpa using this
      have hrid : r.id = g.id := by rw [← hgr]; rfl
      refine ⟨?_, ?_, ?_⟩
      · intro hexv _
        rcases hexv with ⟨v1, hv1, hid1⟩
        exact absurd (List.any_eq_true.mpr
          ⟨mkVectorCand v1, List.mem_map_of_mem _ hv1, by simp [show (mkVectorCand v1).id = v1.id from rfl, hid1, hrid]⟩) hfresh
      · intro _ _
        subst hgr
        exact ⟨rfl, rfl⟩
      · intro hexv _
        rcases hexv with ⟨v1, hv1, hid1⟩
        exact absurd (List.any_eq_true.mpr
          ⟨mkVectorCand v1, List.mem_map_of_mem _ hv1, by simp [show (mkVectorCand v1).id = v1.id from rfl, hid1, hrid]⟩) hfresh
  · haveI instTot : IsTotal Candidate (fun a b => b.score ≤ a.score) :=
      ⟨fun a b => le_total b.score a.score⟩
    haveI instTrans : IsTrans Candidate (fun a b => b.score ≤ a.score) :=
      ⟨fun a b c hab hbc => le_trans hbc hab⟩
    simp only [searchDocuments]
    exact List.Pairwise.sublist (List.take_sublist _ _)
      (List.sorted_insertionSort (fun a b : Candidate => b.score ≤ a.score) _)
  · simp only [searchDocuments]
    exact List.length_take_le _ _

/-- C7 (witness): one vector hit overlapping one of two keyword hits. -/
theorem c7_witness :
    (vecW.map (fun v => v.id)).Nodup ∧ (ftsW.map (fun f => f.id)).Nodup ∧
    ((∀ r ∈ searchDocuments vecW ftsW 5,
      ((∃ v ∈ vecW, v.id = r.id) → (∃ f ∈ ftsW, f.id = r.id) →
        r.source = "hybrid" ∧ ∃ v ∈ vecW, v.id = r.id ∧ r.score = v.score + 0.2) ∧
      ((∃ f ∈ ftsW, f.id = r.id) → (¬ ∃ v ∈ vecW, v.id = r.id) →
        r.source = "keyword" ∧ r.score = 0.5) ∧
      ((∃ v ∈ vecW, v.id = r.id) → (¬ ∃ f ∈ ftsW, f.id = r.id) →
        r.source = "vector" ∧ ∃ v ∈ vecW, v.id = r.id ∧ r.score = v.score)) ∧
    (searchDocuments vecW ftsW 5).Pairwise (fun a b => b.score ≤ a.score) ∧
    (searchDocuments vecW ftsW 5).length ≤ 5) :=
  ⟨by decide, by decide, c7_hybrid_fusion vecW ftsW 5 (by decide) (by decide)⟩

end Resonance
